import Mathlib

/-!
Shallow embedding of `src/lap-ts/lap.ts` (Jonker-Volgenant linear assignment
solver, TypeScript port) over exact rational arithmetic, together with
theorems settling the specification claims about it.

Conventions of the embedding:
* JS `number` is modelled by `ℚ`; the claims under study quantify over finite
  real costs, and every branch of the source is an order comparison or a
  field operation, so the rational trace coincides with the real-number
  semantics of the source on rational inputs.
* `costMatrix[i][j]` is modelled by `mget`, which returns 0 out of bounds;
  an `Option`-returning accessor `mgetO` is used to witness out-of-bounds
  accesses where a claim is about them.
* Index arrays (`rowsol`, `colsol`, `free`) hold `ℤ` because the source
  stores the sentinel `-1` in them; `matches` holds `ℕ`.
* The unbounded `while` loops of the source (the augmenting-row-reduction
  scan, the Dijkstra loop and the path flip) are embedded with explicit
  fuel, returning `none` when the fuel is exhausted; all bounded `for`
  loops are folds over their (fixed) index ranges.
-/

namespace LapTs

/-- JS read `costMatrix[i][j]`; out-of-range reads yield the default 0
(the positions at which the source reads out of range are never consulted
in any value it returns). -/
def mget (cost : List (List ℚ)) (i j : ℕ) : ℚ :=
  (cost.getD i []).getD j 0

/-- Option-returning matrix indexing, used to witness out-of-bounds reads. -/
def mgetO (cost : List (List ℚ)) (i j : ℕ) : Option ℚ :=
  (cost.getD i []).get? j

/-- Source lines 66-77 (`sumUp`): returns `[BIG, epsilon]` where
`BIG = 10000 * (sum / dim)` and `epsilon = (sum / dim) / 10000`,
`sum` ranging over all `dim * dim` entries. For `dim = 0` the JS division
`0/0` is NaN; the rational embedding yields 0, and neither constant is
consulted downstream when `dim = 0`. -/
def sumUp (dim : ℕ) (cost : List (List ℚ)) : ℚ × ℚ :=
  let sum : ℚ :=
    ((List.range dim).map fun i =>
      ((List.range dim).map fun j => mget cost i j).sum).sum
  (10000 * (sum / (dim : ℚ)), (sum / (dim : ℚ)) / 10000)

/-- Result record of `lap` (source interface `ILap`). -/
structure ILap where
  cost : ℚ
  row : Array ℤ
  col : Array ℤ
  u : Array ℚ
  v : Array ℚ
deriving DecidableEq, Repr

instance : Inhabited ILap := ⟨⟨0, #[], #[], #[], #[]⟩⟩

/-- Shared mutable state of the solver phases. `j2` is part of the state
because in the source it is a function-scoped variable whose value survives
from one loop iteration to the next (it is only conditionally updated by the
minimum scan). -/
structure St where
  rowsol : Array ℤ
  colsol : Array ℤ
  v : Array ℚ
  matchCount : Array ℕ
  free : Array ℤ
  numfree : ℕ
  j2 : ℕ
deriving DecidableEq, Repr

/-- Initial state: all arrays as allocated at source lines 91-115
(`Int32Array`/`Float64Array` zero-filled; `matches` pre-filled with 0). -/
def initSt (dim : ℕ) : St :=
  { rowsol := Array.mkArray dim 0
    colsol := Array.mkArray dim 0
    v := Array.mkArray dim 0
    matchCount := Array.mkArray dim 0
    free := Array.mkArray dim 0
    numfree := 0
    j2 := 0 }

/-- Column-reduction scan of source lines 120-129: `min` is first assigned
`costMatrix[0][j]` and immediately reassigned `0` (both statements appear in
the source; the second one wins), then rows `1..dim-1` are compared against
it. Returns `(min, imin)`. -/
def colRedScan (dim : ℕ) (cost : List (List ℚ)) (j : ℕ) : ℚ × ℕ :=
  let minFirst : ℚ := mget cost 0 j
  let minSecond : ℚ := 0
  -- the dead store: `min = costMatrix[0][j]; min = 0;`
  let _ := minFirst
  (List.range' 1 (dim - 1)).foldl
    (fun (p : ℚ × ℕ) i =>
      if mget cost i j < p.1 then (mget cost i j, i) else p)
    (minSecond, 0)

/-- Body of the column-reduction loop (source lines 119-144) for one column
`j`. -/
def colRedBody (dim : ℕ) (cost : List (List ℚ)) (s : St) (j : ℕ) : St :=
  let scan := colRedScan dim cost j
  let mn := scan.1
  let imin := scan.2
  let v1 := s.v.setD j mn
  let matches1 := s.matchCount.setD imin (s.matchCount.getD imin 0 + 1)
  if matches1.getD imin 0 == 1 then
    { s with
        v := v1
        matchCount := matches1
        rowsol := s.rowsol.setD imin (j : ℤ)
        colsol := s.colsol.setD j (imin : ℤ) }
  else if v1.getD j 0 < v1.getD (s.rowsol.getD imin 0).toNat 0 then
    let j1 := (s.rowsol.getD imin 0).toNat
    { s with
        v := v1
        matchCount := matches1
        rowsol := s.rowsol.setD imin (j : ℤ)
        colsol := (s.colsol.setD j (imin : ℤ)).setD j1 (-1) }
  else
    { s with
        v := v1
        matchCount := matches1
        colsol := s.colsol.setD j (-1) }

/-- COLUMN REDUCTION phase (source lines 117-144); columns are scanned in
descending index order. -/
def columnReduction (dim : ℕ) (cost : List (List ℚ)) : St :=
  ((List.range dim).reverse).foldl (colRedBody dim cost) (initSt dim)

/-- Body of the reduction-transfer loop (source lines 146-163) for one row
`i`: unmatched rows populate `free`; rows matched exactly once transfer
reduction to their assigned column. -/
def redTransferBody (dim : ℕ) (cost : List (List ℚ)) (BIG eps : ℚ)
    (s : St) (i : ℕ) : St :=
  if s.matchCount.getD i 0 == 0 then
    { s with free := s.free.setD s.numfree (i : ℤ), numfree := s.numfree + 1 }
  else if s.matchCount.getD i 0 == 1 then
    let j1 := (s.rowsol.getD i 0).toNat
    let mn := (List.range dim).foldl
      (fun mn j =>
        if j ≠ j1 then
          if mget cost i j - s.v.getD j 0 < mn + eps then
            mget cost i j - s.v.getD j 0
          else mn
        else mn)
      BIG
    { s with v := s.v.setD j1 (s.v.getD j1 0 - mn) }
  else s

/-- REDUCTION TRANSFER phase (source lines 145-163). -/
def reductionTransfer (dim : ℕ) (cost : List (List ℚ)) (BIG eps : ℚ)
    (s : St) : St :=
  (List.range dim).foldl (redTransferBody dim cost BIG eps) s

/-- Loop state of the augmenting-row-reduction scan (source lines 173-229):
scan position `k`, the pass size `prvnumfree`, the next-pass counter
`numfree`, the shared arrays, and the function-scoped `j2`. -/
structure ArrSt where
  k : ℕ
  prvnumfree : ℕ
  numfree : ℕ
  free : Array ℤ
  rowsol : Array ℤ
  colsol : Array ℤ
  v : Array ℚ
  j2 : ℕ
deriving DecidableEq, Repr

/-- Minimum / second-minimum reduced-cost scan over the columns of row `i`
(source lines 181-198). `umin` starts at `costMatrix[i][0] - v[0]` with
`j1 = 0`, `usubmin` starts at `BIG`, and `j2` keeps its previous
function-scoped value when the scan never updates it. Returns
`(umin, usubmin, j1, j2)`. -/
def arrScan (dim : ℕ) (cost : List (List ℚ)) (v : Array ℚ) (BIG : ℚ)
    (i : ℕ) (j2prev : ℕ) : ℚ × ℚ × ℕ × ℕ :=
  (List.range' 1 (dim - 1)).foldl
    (fun (p : ℚ × ℚ × ℕ × ℕ) j =>
      let umin := p.1
      let usubmin := p.2.1
      let j1 := p.2.2.1
      let j2 := p.2.2.2
      let h := mget cost i j - v.getD j 0
      if h < usubmin then
        if h ≥ umin then (umin, h, j1, j)
        else (h, umin, j, j1)
      else (umin, usubmin, j1, j2))
    (mget cost i 0 - v.getD 0 0, BIG, 0, j2prev)

/-- One iteration of the inner `while (k < prvnumfree)` loop of the
augmenting row reduction (source lines 177-229): fetch the free row at `k`,
scan for its two smallest reduced costs, update `v[j1]` (strict-minimum
branch) or swap the candidate column to `j2` (equal-minima branch), assign
the row, and requeue or defer a displaced row `i0`. -/
def arrStep (dim : ℕ) (cost : List (List ℚ)) (BIG eps : ℚ)
    (s : ArrSt) : ArrSt :=
  let i := (s.free.getD s.k 0).toNat
  let k1 := s.k + 1
  let scan := arrScan dim cost s.v BIG i s.j2
  let umin := scan.1
  let usubmin := scan.2.1
  let j1 := scan.2.2.1
  let j2 := scan.2.2.2
  let i0 := s.colsol.getD j1 0
  -- branch at source lines 200-211
  let branch : Array ℚ × ℕ × ℤ :=
    if umin < usubmin + eps then
      (s.v.setD j1 (s.v.getD j1 0 - (usubmin + eps - umin)), j1, i0)
    else if i0 > -1 then
      (s.v, j2, s.colsol.getD j2 0)
    else
      (s.v, j1, i0)
  let v1 := branch.1
  let j1f := branch.2.1
  let i0f := branch.2.2
  let rowsol1 := s.rowsol.setD i (j1f : ℤ)
  let colsol1 := s.colsol.setD j1f (i : ℤ)
  if i0f > -1 then
    if umin < usubmin then
      -- splice the displaced row back at the current scan position
      { s with
          k := k1 - 1
          free := s.free.setD (k1 - 1) i0f
          rowsol := rowsol1
          colsol := colsol1
          v := v1
          j2 := j2 }
    else
      -- defer the displaced row to the next pass
      { s with
          k := k1
          numfree := s.numfree + 1
          free := s.free.setD s.numfree i0f
          rowsol := rowsol1
          colsol := colsol1
          v := v1
          j2 := j2 }
  else
    { s with
        k := k1
        rowsol := rowsol1
        colsol := colsol1
        v := v1
        j2 := j2 }

/-- Fueled run of the `while (k < prvnumfree)` loop. -/
def arrRun (dim : ℕ) (cost : List (List ℚ)) (BIG eps : ℚ) :
    ℕ → ArrSt → Option ArrSt
  | 0, s => if s.k < s.prvnumfree then none else some s
  | fuel + 1, s =>
    if s.k < s.prvnumfree then
      arrRun dim cost BIG eps fuel (arrStep dim cost BIG eps s)
    else some s

/-- Entry state of one pass of the augmenting row reduction (source lines
173-176: `k = 0`, `prvnumfree = numfree`, `numfree = 0`). -/
def arrStartState (s : St) : ArrSt :=
  { k := 0, prvnumfree := s.numfree, numfree := 0, free := s.free
    rowsol := s.rowsol, colsol := s.colsol, v := s.v, j2 := s.j2 }

/-- One pass of the augmenting row reduction over the current free list. -/
def arrPass (dim : ℕ) (cost : List (List ℚ)) (BIG eps : ℚ) (fuel : ℕ)
    (s : St) : Option St :=
  (arrRun dim cost BIG eps fuel (arrStartState s)).map fun a =>
    { s with
        free := a.free
        rowsol := a.rowsol
        colsol := a.colsol
        v := a.v
        numfree := a.numfree
        j2 := a.j2 }

/-- AUGMENTING ROW REDUCTION phase (source lines 165-230): the do-loop body
runs exactly twice. -/
def arrPhase (dim : ℕ) (cost : List (List ℚ)) (BIG eps : ℚ) (fuel : ℕ)
    (s : St) : Option St := do
  let s1 ← arrPass dim cost BIG eps fuel s
  arrPass dim cost BIG eps fuel s1

/-- Observer: the displaced row of an `arrStep`, i.e. the value `i0` tested
at source line 218, when it is a real row (`i0 > -1`). Recomputes the scan
and branch of `arrStep` without side effects. -/
def arrDisplaced (dim : ℕ) (cost : List (List ℚ)) (BIG eps : ℚ)
    (s : ArrSt) : Option ℤ :=
  let i := (s.free.getD s.k 0).toNat
  let scan := arrScan dim cost s.v BIG i s.j2
  let umin := scan.1
  let usubmin := scan.2.1
  let j1 := scan.2.2.1
  let j2 := scan.2.2.2
  let i0 := s.colsol.getD j1 0
  let i0f := if umin < usubmin + eps then i0
             else if i0 > -1 then s.colsol.getD j2 0
             else i0
  if i0f > -1 then some i0f else none

/-- Observer: whether an `arrStep` takes the equal-minima branch of source
lines 205-211 (`umin >= usubmin + eps` and the minimum column is assigned). -/
def arrEqualMinimaBranch (dim : ℕ) (cost : List (List ℚ)) (BIG eps : ℚ)
    (s : ArrSt) : Bool :=
  let i := (s.free.getD s.k 0).toNat
  let scan := arrScan dim cost s.v BIG i s.j2
  let umin := scan.1
  let usubmin := scan.2.1
  let j1 := scan.2.2.1
  decide (¬ umin < usubmin + eps) && decide (s.colsol.getD j1 0 > -1)

/-- Index sequence of the per-free-row initialization loop of the
augmentation phase, source line 238: `for (j = dim; j >= 0; j--)`. The loop
visits `dim, dim - 1, ..., 0` — including the out-of-range index `dim`. -/
def augInitJs (dim : ℕ) : List ℕ :=
  (List.range (dim + 1)).reverse

/-- Scratch state of one shortest-path search (source lines 236-310). The
arrays `d`, `pred`, `collist` receive writes at the `dim + 1` indices visited
by `augInitJs`, so they are sized `dim + 1` here (in JS they are plain
arrays of allocated length `dim` that silently grow). `last` is `ℤ` because
the source sets `last = low - 1`, which is `-1` when `low = 0`. -/
structure DijSt where
  d : Array ℚ
  pred : Array ℤ
  collist : Array ℕ
  low : ℕ
  up : ℕ
  min : ℚ
  last : ℤ
  endofpath : ℕ
  found : Bool
deriving DecidableEq, Repr

/-- Initialization of one shortest-path search (source lines 238-248):
`d[j] = costMatrix[freerow][j] - v[j]`, `pred[j] = freerow`,
`collist[j] = j`, for `j` running from `dim` down to `0`. At `j = dim` the
read `costMatrix[freerow][dim]` is out of bounds (JS `undefined`, NaN after
the subtraction); the embedding stores `0 - 0` there, and no later step of
the source consults that slot. -/
def dijInit (dim : ℕ) (cost : List (List ℚ)) (freerow : ℕ)
    (v : Array ℚ) : DijSt :=
  (augInitJs dim).foldl
    (fun s j =>
      { s with
          d := s.d.setD j (mget cost freerow j - v.getD j 0)
          pred := s.pred.setD j (freerow : ℤ)
          collist := s.collist.setD j j })
    { d := Array.mkArray (dim + 1) 0
      pred := Array.mkArray (dim + 1) 0
      collist := Array.mkArray (dim + 1) 0
      low := 0, up := 0, min := 0, last := 0, endofpath := 0, found := false }

/-- Frontier rescan of source lines 250-279, entered when `up == low`: find
the new minimum of `d` over `collist[up..dim-1]`, batch all columns
attaining it into `collist[low..up-1]`, then look for an unassigned column
among them. -/
def dijRescan (dim : ℕ) (colsol : Array ℤ) (s : DijSt) : DijSt :=
  let lastv : ℤ := (s.low : ℤ) - 1
  let minv := s.d.getD (s.collist.getD s.up 0) 0
  let up1 := s.up + 1
  let s1 :=
    (List.range' up1 (dim - up1)).foldl
      (fun t k =>
        let j := t.collist.getD k 0
        let h := t.d.getD j 0
        if h ≤ t.min then
          let upmin : ℕ × ℚ := if h < t.min then (t.low, h) else (t.up, t.min)
          { t with
              min := upmin.2
              collist := (t.collist.setD k (t.collist.getD upmin.1 0)).setD upmin.1 j
              up := upmin.1 + 1 }
        else t)
      { s with last := lastv, min := minv, up := up1 }
  let hit :=
    (List.range' s1.low (s1.up - s1.low)).foldl
      (fun acc k =>
        match acc with
        | some c => some c
        | none =>
          let c := s1.collist.getD k 0
          if colsol.getD c 0 < 0 then some c else none)
      (none : Option ℕ)
  match hit with
  | some c => { s1 with endofpath := c, found := true }
  | none => s1

/-- Relaxation step of source lines 281-309: pop column `j1` from the
frontier, let `i` be the row assigned to it, and relax all columns in
`collist[up..dim-1]` through row `i`; a column reaching the current minimum
is either the augmenting target (if unassigned; the loop breaks before
writing `d[j]`) or is batched into the frontier. -/
def dijRelax (dim : ℕ) (cost : List (List ℚ)) (v : Array ℚ)
    (colsol : Array ℤ) (s : DijSt) : DijSt :=
  let j1 := s.collist.getD s.low 0
  let low1 := s.low + 1
  let i := (colsol.getD j1 0).toNat
  let h := mget cost i j1 - v.getD j1 0 - s.min
  (List.range' s.up (dim - s.up)).foldl
    (fun t k =>
      if t.found then t
      else
        let j := t.collist.getD k 0
        let v2 := mget cost i j - v.getD j 0 - h
        if v2 < t.d.getD j 0 then
          let pred1 := t.pred.setD j (i : ℤ)
          if v2 == t.min then
            if colsol.getD j 0 < 0 then
              { t with pred := pred1, endofpath := j, found := true }
            else
              { t with
                  pred := pred1
                  collist := (t.collist.setD k (t.collist.getD t.up 0)).setD t.up j
                  up := t.up + 1
                  d := t.d.setD j v2 }
          else { t with pred := pred1, d := t.d.setD j v2 }
        else t)
    { s with low := low1 }

/-- One iteration of the `do { ... } while (!unassignedfound)` loop of the
shortest-path search (source lines 249-310). -/
def dijStep (dim : ℕ) (cost : List (List ℚ)) (v : Array ℚ)
    (colsol : Array ℤ) (s : DijSt) : DijSt :=
  let s1 := if s.up == s.low then dijRescan dim colsol s else s
  if s1.found then s1 else dijRelax dim cost v colsol s1

/-- Fueled run of the do-while loop: the body runs at least once and repeats
until an unassigned column is found. -/
def dijRun (dim : ℕ) (cost : List (List ℚ)) (v : Array ℚ)
    (colsol : Array ℤ) : ℕ → DijSt → Option DijSt
  | 0, _ => none
  | fuel + 1, s =>
    let t := dijStep dim cost v colsol s
    if t.found then some t else dijRun dim cost v colsol fuel t

/-- Column-price update of source lines 312-316: `for (k = last + 1; k--;)`
runs `k = last, last - 1, ..., 0` (and not at all when `last = -1`),
setting `v[j1] += d[j1] - min` for `j1 = collist[k]`. -/
def priceUpdate (s : DijSt) (v : Array ℚ) : Array ℚ :=
  match s.last with
  | .negSucc _ => v
  | .ofNat lastn =>
    ((List.range (lastn + 1)).reverse).foldl
      (fun w k =>
        let j1 := s.collist.getD k 0
        w.setD j1 (w.getD j1 0 + s.d.getD j1 0 - s.min))
      v

/-- Fueled alternating-path flip of source lines 319-325, walking `pred`
from `endofpath` back to `freerow` and exchanging row/column ownership. -/
def flipRun (pred : Array ℤ) (freerow : ℕ) :
    ℕ → ℕ → Array ℤ → Array ℤ → Option (Array ℤ × Array ℤ)
  | 0, _, _, _ => none
  | fuel + 1, endofpath, rowsol, colsol =>
    let i := pred.getD endofpath 0
    let colsol1 := colsol.setD endofpath i
    let j1 := endofpath
    let endofpath1 := (rowsol.getD i.toNat 0).toNat
    let rowsol1 := rowsol.setD i.toNat (j1 : ℤ)
    if i == (freerow : ℤ) then some (rowsol1, colsol1)
    else flipRun pred freerow fuel endofpath1 rowsol1 colsol1

/-- One augmentation (source lines 233-326) for a single free row: run the
shortest-path search, update the column prices over the finalized columns,
and flip the alternating path. -/
def augRow (dim : ℕ) (cost : List (List ℚ)) (fuel : ℕ) (freerow : ℕ)
    (rowsol colsol : Array ℤ) (v : Array ℚ) :
    Option (Array ℤ × Array ℤ × Array ℚ) := do
  let s ← dijRun dim cost v colsol fuel (dijInit dim cost freerow v)
  let v1 := priceUpdate s v
  let rc ← flipRun s.pred freerow fuel s.endofpath rowsol colsol
  some (rc.1, rc.2, v1)

/-- AUGMENT SOLUTION phase (source lines 232-326): one augmentation per
remaining free row, in free-list order. -/
def augPhase (dim : ℕ) (cost : List (List ℚ)) (fuel : ℕ)
    (s : St) : Option St :=
  (List.range s.numfree).foldlM
    (fun (t : St) f =>
      let freerow := (t.free.getD f 0).toNat
      (augRow dim cost fuel freerow t.rowsol t.colsol t.v).map fun rcv =>
        { t with rowsol := rcv.1, colsol := rcv.2.1, v := rcv.2.2 })
    s

/-- Finalization (source lines 328-334): for `i = dim - 1` down to `0`, with
`j = rowsol[i]`, set `u[i] = costMatrix[i][j] - v[j]` and accumulate
`costMatrix[i][j]` into the total cost. Returns `(lapcost, u)`. -/
def finalize (dim : ℕ) (cost : List (List ℚ)) (rowsol : Array ℤ)
    (v : Array ℚ) : ℚ × Array ℚ :=
  ((List.range dim).reverse).foldl
    (fun (acc : ℚ × Array ℚ) i =>
      let j := (rowsol.getD i 0).toNat
      (acc.1 + mget cost i j, acc.2.setD i (mget cost i j - v.getD j 0)))
    (0, Array.mkArray dim 0)

/-- The solver state after the first four phases (column reduction,
reduction transfer, and both augmenting-row-reduction passes). -/
def lapStateAfterArr (dim : ℕ) (cost : List (List ℚ)) (fuel : ℕ) :
    Option St :=
  let be := sumUp dim cost
  arrPhase dim cost be.1 be.2 fuel
    (reductionTransfer dim cost be.1 be.2 (columnReduction dim cost))

/-- The whole solver `lap` (source lines 86-343), with fuel for the three
unbounded loops. -/
def lapF (dim : ℕ) (cost : List (List ℚ)) (fuel : ℕ) : Option ILap := do
  let s ← lapStateAfterArr dim cost fuel
  let s1 ← augPhase dim cost fuel s
  let cu := finalize dim cost s1.rowsol s1.v
  some { cost := cu.1, row := s1.rowsol, col := s1.colsol, u := cu.2, v := s1.v }

/-- All ways to insert `x` into a list (structural recursion, so that the
enumeration kernel-reduces). -/
def insertAll (x : ℕ) : List ℕ → List (List ℕ)
  | [] => [[x]]
  | y :: ys => (x :: y :: ys) :: (insertAll x ys).map fun zs => y :: zs

/-- All permutations of a list, by structural recursion. -/
def permsOf : List ℕ → List (List ℕ)
  | [] => [[]]
  | x :: xs => ((permsOf xs).map (insertAll x)).flatten

/-- Minimum of a list of rationals. -/
def listMinQ : List ℚ → Option ℚ
  | [] => none
  | x :: xs => some (xs.foldl (fun m y => if y < m then y else m) x)

/-- Brute-force optimum: the minimum of `sum_i costMatrix[i][p(i)]` over all
permutations `p` of `0..dim-1` (per the optimality claim for small cases). -/
def bruteForceMin (dim : ℕ) (cost : List (List ℚ)) : Option ℚ :=
  listMinQ ((permsOf (List.range dim)).map fun p =>
    ((List.range dim).map fun i => mget cost i (p.getD i 0)).sum)

/-- True per-column minimum over all rows (what the specification says the
column reduction computes). -/
def columnMin (dim : ℕ) (cost : List (List ℚ)) (j : ℕ) : Option ℚ :=
  ((List.range dim).map fun i => mget cost i j).min?

/-- Observer: the minimum and second-minimum reduced costs seen by one
augmenting-row-reduction step for the row at the current scan position. -/
def arrMins (dim : ℕ) (cost : List (List ℚ)) (BIG : ℚ) (s : ArrSt) : ℚ × ℚ :=
  let scan := arrScan dim cost s.v BIG ((s.free.getD s.k 0).toNat) s.j2
  (scan.1, scan.2.1)

/-- The 2x2 matrix on which `lap` returns a suboptimal assignment. -/
def mSubopt : List (List ℚ) := [[0, 1], [1, 1]]

/-- The 4x4 nonnegative matrix on which the returned duals violate dual
feasibility by a macroscopic amount. -/
def mDual : List (List ℚ) := [[3, 0, 0, 2], [2, 1, 3, 1], [0, 2, 1, 3], [2, 1, 0, 0]]

/-- A 2x2 matrix whose run displaces a row in the equal-minima branch and
reaches the augmentation phase. -/
def mNeg : List (List ℚ) := [[-18, -12], [-17, -5]]

/-- The augmenting-row-reduction state reached on `mNeg` at the start of the
first pass (produced by column reduction and reduction transfer). -/
def mNegArrState : ArrSt :=
  { k := 0, prvnumfree := 1, numfree := 0, free := #[0, 0]
    rowsol := #[0, 0], colsol := #[1, -1], v := #[-17, -5], j2 := 0 }

/-- A state on which an augmenting-row-reduction step displaces a row out of
the strict-minimum branch and requeues it at the current scan position. -/
def mRequeueArrState : ArrSt :=
  { k := 0, prvnumfree := 1, numfree := 0, free := #[1, 0]
    rowsol := #[0, 0], colsol := #[0, -1], v := #[0, 0], j2 := 0 }

end LapTs

namespace LapTs

/-! Helper lemmas about `Array.setD`/`Array.getD` and the finalization fold. -/

theorem getD_setD_self (a : Array ℚ) (i : ℕ) (x d : ℚ) (h : i < a.size) :
    (a.setD i x).getD i d = x := by
  simp [Array.setD, Array.getD, h]

theorem getD_setD_other (a : Array ℚ) (i j : ℕ) (x d : ℚ) (hne : j ≠ i) :
    (a.setD i x).getD j d = a.getD j d := by
  by_cases hi : i < a.size
  · rw [Array.setD, dif_pos hi]
    by_cases hj : j < a.size
    · rw [Array.getD, dif_pos (by simpa using hj), Array.getD, dif_pos hj]
      simp only [Array.get_eq_getElem]
      rw [Array.getElem_set_ne]
      simp only [Fin.val_mk]
      omega
    · rw [Array.getD, dif_neg (by simpa using hj), Array.getD, dif_neg hj]
  · rw [Array.setD, dif_neg hi]

theorem foldl_setD_size (w : ℕ → ℚ) (l : List ℕ) (A : Array ℚ) :
    (l.foldl (fun a i => a.setD i (w i)) A).size = A.size := by
  induction l generalizing A with
  | nil => rfl
  | cons a l ih => simp [List.foldl_cons, ih, Array.size_setD]

theorem foldl_setD_getD (w : ℕ → ℚ) (l : List ℕ) (A : Array ℚ) (q : ℕ)
    (hq : q < A.size) :
    (l.foldl (fun a i => a.setD i (w i)) A).getD q 0
      = if q ∈ l then w q else A.getD q 0 := by
  induction l generalizing A with
  | nil => simp
  | cons a l ih =>
    rw [List.foldl_cons, ih _ (by simpa [Array.size_setD] using hq)]
    by_cases hmem : q ∈ l
    · simp [hmem]
    · by_cases hqa : q = a
      · subst hqa
        simp [hmem, getD_setD_self _ _ _ _ hq]
      · simp [hmem, hqa, getD_setD_other _ _ _ _ _ hqa]

theorem finalize_foldl (cost : List (List ℚ)) (rowsol : Array ℤ)
    (v : Array ℚ) (l : List ℕ) (c0 : ℚ) (A : Array ℚ) :
    (l.foldl
      (fun (acc : ℚ × Array ℚ) i =>
        let j := (rowsol.getD i 0).toNat
        (acc.1 + mget cost i j, acc.2.setD i (mget cost i j - v.getD j 0)))
      (c0, A))
    = (c0 + (l.map fun i => mget cost i ((rowsol.getD i 0).toNat)).sum,
       l.foldl
        (fun a i =>
          a.setD i (mget cost i ((rowsol.getD i 0).toNat)
            - v.getD ((rowsol.getD i 0).toNat) 0))
        A) := by
  induction l generalizing c0 A with
  | nil => simp
  | cons a l ih =>
    simp only [List.foldl_cons]
    rw [ih]
    simp [add_assoc]

unseal Rat.add Rat.mul Rat.sub Rat.inv in
/-- C2. The claim says that for 1 <= n <= 8 the returned cost equals the
brute-force minimum over all permutations. On the 2x2 matrix
`[[0,1],[1,1]]` the solver returns cost 2 while the optimum is 1 (the
identity assignment costs 0 + 1): the column-reduction dead store
(`min = costMatrix[0][j]; min = 0;`, source lines 121-122) makes the
initial duals skip row 0, and the run commits to the more expensive
permutation. -/
theorem c2_suboptimal_cost_on_small_matrix :
    (lapF 2 mSubopt 1000).map ILap.cost = some 2
  ∧ bruteForceMin 2 mSubopt = some 1
  ∧ (2 : ℚ) ≠ 1 := by
  refine ⟨by decide, by decide, by norm_num⟩

unseal Rat.add Rat.mul Rat.sub Rat.inv in
/-- C3. The claim says that after column reduction `v[j]` is the minimum of
`costMatrix[i][j]` over all rows `i`, attained at `imin`. On the 1x1 matrix
`[[5]]`, the scan's dead store (source lines 121-122) resets the running
minimum to 0 before any row is compared, so the code produces
`v[0] = 0` and `imin = 0` although the true column minimum (and
`cost[imin][0]`) is 5. -/
theorem c3_column_reduction_dead_store :
    colRedScan 1 [[5]] 0 = (0, 0)
  ∧ (columnReduction 1 [[5]]).v = #[0]
  ∧ columnMin 1 [[5]] 0 = some 5
  ∧ mget [[5]] 0 0 = 5
  ∧ (0 : ℚ) ≠ 5 := by
  refine ⟨by decide, by decide, by decide, by decide, by norm_num⟩

unseal Rat.add Rat.mul Rat.sub Rat.inv in
/-- C4. The claim says the returned duals satisfy
`u[i] + v[j] <= costMatrix[i][j] + epsilon` for all `i`, `j`. On the
nonnegative 4x4 matrix `mDual`, `u[0] + v[1] = 79979/40000` while
`costMatrix[0][1] + epsilon = 21/40000`: the constraint is violated by
almost 2; the violation disappears once the column-reduction dead store is
repaired, so it is caused by that slip. -/
theorem c4_dual_feasibility_violated :
    (lapF 4 mDual 1000).isSome = true
  ∧ mget mDual 0 1 + (sumUp 4 mDual).2
      < ((lapF 4 mDual 1000).getD default).u.getD 0 0
        + ((lapF 4 mDual 1000).getD default).v.getD 1 0 := by
  refine ⟨by decide, by decide⟩

/-- C5 counterexample. The claim says invalid inputs (in particular
`n <= 0`) are rejected before phase 1 with no result produced. The code has
no validation at all: on `n = 0` with an empty matrix the embedded run
returns a normal, complete result for every fuel, refuting the claim's
instance at this input. -/
theorem c5_invalid_input_not_rejected :
    ¬ (∀ fuel, lapF 0 [] fuel = none) := by
  intro h
  have h1 := h 1
  rw [show lapF 0 [] 1 = some ⟨0, #[], #[], #[], #[]⟩ from rfl] at h1
  exact Option.noConfusion h1

/-- C5 amended. `lap` performs no input validation: nothing is rejected
before phase 1. For `n = 0` (the `n <= 0` case expressible in the
embedding) every loop bound is empty and the call returns normally with a
complete trivial result rather than an error. -/
theorem c5_no_input_validation :
    ∀ fuel, lapF 0 [] fuel = some ⟨0, #[], #[], #[], #[]⟩ := by
  intro fuel
  cases fuel <;> rfl

unseal Rat.add Rat.mul Rat.sub Rat.inv in
/-- C6 counterexample. The claim says a displacement arising from the
equal-minima branch is spliced back at the current scan position and
reprocessed in the same pass, and other displacements are deferred. On
`mNeg` the first augmenting-row-reduction step (a state literally produced
by the earlier phases) displaces row 1 inside the equal-minima branch, yet
the step advances the scan position and puts row 1 on the next pass's free
list instead of splicing it back. -/
theorem c6_equal_minima_displacement_deferred :
    sumUp 2 mNeg = (-260000, -13/5000)
  ∧ arrStartState (reductionTransfer 2 mNeg (-260000) (-13/5000)
      (columnReduction 2 mNeg)) = mNegArrState
  ∧ arrEqualMinimaBranch 2 mNeg (-260000) (-13/5000) mNegArrState = true
  ∧ arrDisplaced 2 mNeg (-260000) (-13/5000) mNegArrState = some 1
  ∧ (arrStep 2 mNeg (-260000) (-13/5000) mNegArrState).k = mNegArrState.k + 1
  ∧ (arrStep 2 mNeg (-260000) (-13/5000) mNegArrState).numfree
      = mNegArrState.numfree + 1 := by
  refine ⟨by decide, by decide, by decide, by decide, by decide, by decide⟩

/-- C6 amended. In an augmenting-row-reduction step that displaces a
previously assigned row (`arrDisplaced` returns it), the displaced row is
spliced back at the current scan position — the scan position `k` is left
unchanged so it is reprocessed in the same pass — exactly when the minimum
reduced cost is strictly below the second minimum (`umin < usubmin`, the
test at source line 219); otherwise the scan advances and the row is
deferred to the next pass's free list. (The branch the displacement arose
from is immaterial: with `eps >= 0` the equal-minima branch always defers.) -/
theorem c6_requeue_iff_strict_minimum (dim : ℕ) (cost : List (List ℚ))
    (BIG eps : ℚ) (s : ArrSt) (i0 : ℤ)
    (h : arrDisplaced dim cost BIG eps s = some i0) :
    ((arrStep dim cost BIG eps s).k = s.k
        ↔ (arrMins dim cost BIG s).1 < (arrMins dim cost BIG s).2)
  ∧ ((arrStep dim cost BIG eps s).numfree = s.numfree + 1
        ↔ ¬ (arrMins dim cost BIG s).1 < (arrMins dim cost BIG s).2) := by
  simp only [arrStep, arrDisplaced, arrMins] at h ⊢
  by_cases h1 : (arrScan dim cost s.v BIG ((s.free.getD s.k 0).toNat) s.j2).1
      < (arrScan dim cost s.v BIG ((s.free.getD s.k 0).toNat) s.j2).2.1 + eps
  · simp only [if_pos h1] at h ⊢
    by_cases h3 : s.colsol.getD
        ((arrScan dim cost s.v BIG ((s.free.getD s.k 0).toNat) s.j2).2.2.1) 0 > -1
    · rw [if_pos h3] at h ⊢
      by_cases h2 : (arrScan dim cost s.v BIG ((s.free.getD s.k 0).toNat) s.j2).1
          < (arrScan dim cost s.v BIG ((s.free.getD s.k 0).toNat) s.j2).2.1
      · rw [if_pos h2]
        exact ⟨⟨fun _ => h2, fun _ => rfl⟩,
          ⟨fun he => absurd (show s.numfree = s.numfree + 1 from he) (by omega),
           fun hn => absurd h2 hn⟩⟩
      · rw [if_neg h2]
        exact ⟨⟨fun he => absurd (show s.k + 1 = s.k from he) (by omega),
           fun hl => absurd hl h2⟩,
          ⟨fun _ => h2, fun _ => rfl⟩⟩
    · rw [if_neg h3] at h
      exact Option.noConfusion h
  · simp only [if_neg h1] at h ⊢
    by_cases h3 : s.colsol.getD
        ((arrScan dim cost s.v BIG ((s.free.getD s.k 0).toNat) s.j2).2.2.1) 0 > -1
    · simp only [if_pos h3] at h ⊢
      by_cases h4 : s.colsol.getD
          ((arrScan dim cost s.v BIG ((s.free.getD s.k 0).toNat) s.j2).2.2.2) 0 > -1
      · rw [if_pos h4] at h ⊢
        by_cases h2 : (arrScan dim cost s.v BIG ((s.free.getD s.k 0).toNat) s.j2).1
            < (arrScan dim cost s.v BIG ((s.free.getD s.k 0).toNat) s.j2).2.1
        · rw [if_pos h2]
          exact ⟨⟨fun _ => h2, fun _ => rfl⟩,
            ⟨fun he => absurd (show s.numfree = s.numfree + 1 from he) (by omega),
             fun hn => absurd h2 hn⟩⟩
        · rw [if_neg h2]
          exact ⟨⟨fun he => absurd (show s.k + 1 = s.k from he) (by omega),
             fun hl => absurd hl h2⟩,
            ⟨fun _ => h2, fun _ => rfl⟩⟩
      · rw [if_neg h4] at h
        exact Option.noConfusion h
    · simp only [if_neg h3] at h
      exact Option.noConfusion h

unseal Rat.add Rat.mul Rat.sub Rat.inv in
/-- Witness for the amended C6: on a concrete state (row 1 scans columns of
`[[0,0],[1,5]]`, column 0 assigned to row 0) the displacement happens with a
strict minimum, the scan position stays put, and the next-pass counter does
not grow. -/
theorem c6_requeue_iff_strict_minimum_witness :
    ((arrStep 2 [[0, 0], [1, 5]] 100 1 mRequeueArrState).k = mRequeueArrState.k
        ↔ (arrMins 2 [[0, 0], [1, 5]] 100 mRequeueArrState).1
            < (arrMins 2 [[0, 0], [1, 5]] 100 mRequeueArrState).2)
  ∧ ((arrStep 2 [[0, 0], [1, 5]] 100 1 mRequeueArrState).numfree
          = mRequeueArrState.numfree + 1
        ↔ ¬ (arrMins 2 [[0, 0], [1, 5]] 100 mRequeueArrState).1
            < (arrMins 2 [[0, 0], [1, 5]] 100 mRequeueArrState).2) :=
  c6_requeue_iff_strict_minimum 2 [[0, 0], [1, 5]] 100 1 mRequeueArrState 0
    (by decide)

/-- C7. The finalization phase satisfies the claim for every dimension,
cost matrix, assignment array and column-dual array: the row dual of each
row `i` is exactly `costMatrix[i][row[i]] - v[row[i]]`, and the returned
cost is exactly the sum of `costMatrix[i][row[i]]` over all rows. -/
theorem c7_finalization (dim : ℕ) (cost : List (List ℚ)) (rowsol : Array ℤ)
    (v : Array ℚ) (i : ℕ) (hi : i < dim) :
    (finalize dim cost rowsol v).2.getD i 0
      = mget cost i ((rowsol.getD i 0).toNat)
        - v.getD ((rowsol.getD i 0).toNat) 0
  ∧ (finalize dim cost rowsol v).1
      = ((List.range dim).map fun r => mget cost r ((rowsol.getD r 0).toNat)).sum := by
  constructor
  · rw [finalize, finalize_foldl]
    rw [foldl_setD_getD _ _ _ _ (by simpa using hi)]
    simp [hi]
  · rw [finalize, finalize_foldl]
    simp [List.map_reverse, List.sum_reverse]

unseal Rat.add Rat.mul Rat.sub Rat.inv in
/-- Witness for C7 at a concrete instance (`dim = 1`, matrix `[[3]]`,
assignment `#[0]`, duals `#[0]`). -/
theorem c7_finalization_witness :
    (0 < 1)
  ∧ ((finalize 1 [[3]] #[0] #[0]).2.getD 0 0
      = mget [[3]] 0 (((#[0] : Array ℤ).getD 0 0).toNat)
        - (#[0] : Array ℚ).getD (((#[0] : Array ℤ).getD 0 0).toNat) 0
    ∧ (finalize 1 [[3]] #[0] #[0]).1
      = ((List.range 1).map fun r =>
          mget [[3]] r (((#[0] : Array ℤ).getD r 0).toNat)).sum) :=
  ⟨by decide, c7_finalization 1 [[3]] #[0] #[0] 0 (by decide)⟩

unseal Rat.add Rat.mul Rat.sub Rat.inv in
/-- C9. The claim says the per-free-row initialization writes exactly the
indices `[0, n)` and reads `costMatrix[freerow][j]` only in bounds. The
source loop `for (j = dim; j >= 0; j--)` (line 238) visits `n` as well:
on `mNeg` (which reaches the augmentation phase with `freerow = 0`, as the
state after the reduction passes shows) the visited index list for `n = 2`
is `[2, 1, 0]`, the scratch arrays receive `n + 1` writes, and the
`Option`-returning embedding of the read `costMatrix[0][2]` takes the
out-of-bounds branch (`none`) — so that branch is reachable, not
unreachable. -/
theorem c9_augmentation_init_out_of_bounds :
    augInitJs 2 = [2, 1, 0]
  ∧ (2 ∈ augInitJs 2 ∧ ¬ (2 < 2))
  ∧ mgetO mNeg 0 2 = none
  ∧ (dijInit 2 mNeg 0 #[-17, -5]).d.size = 3
  ∧ (lapStateAfterArr 2 mNeg 1000).map (fun s => (s.numfree, s.free.getD 0 0))
      = some (1, 0) := by
  refine ⟨by decide, ⟨by decide, by decide⟩, by decide, by decide, by decide⟩

/-- C10. For `n = 0` and an empty cost matrix, `lap` returns normally with
cost 0 and empty `row`, `col`, `u`, `v` arrays. -/
theorem c10_zero_dimension_result :
    lapF 0 [] 1 = some { cost := 0, row := #[], col := #[], u := #[], v := #[] } :=
  rfl

end LapTs
